import Mathlib

/-!
# hank-sync: verification of the server core

A shallow embedding of the parts of the `hank-sync` file-transfer server
that the specification's claims are about, together with theorems settling
each claim.  Definitions are translated from the Rust sources
(`src/server.rs`, `src/audit.rs`, `src/protocol.rs`, `src/client.rs`).
-/

namespace HankSync

/-! ## Path confinement (server.rs, `handle_put` / `handle_list` / `handle_get`)

Every handler computes `path.trim_start_matches('/').replace("..", "")` and
then `root.join(clean_path)`.  We model Rust strings as Lean `String`s and
paths at string level.
-/

/-- Rust `str::trim_start_matches('/')`: repeatedly removes the pattern from
the start, i.e. strips *all* leading `'/'` characters. -/
def trimStartSlashes : List Char → List Char
  | '/' :: rest => trimStartSlashes rest
  | cs => cs

/-- Rust `str::replace("..", "")`: removes every non-overlapping occurrence
of the two-character pattern `".."`, scanning left to right. -/
def removeDotDot : List Char → List Char
  | '.' :: '.' :: rest => removeDotDot rest
  | c :: rest => c :: removeDotDot rest
  | [] => []

/-- `server.rs` lines 156/202/281:
`let clean_path = path.trim_start_matches('/').replace("..", "");` -/
def cleanPath (path : String) : String :=
  ⟨removeDotDot (trimStartSlashes path.data)⟩

/-- `listStartsWith pre cs`: does `cs` begin with `pre`? -/
def listStartsWith : List Char → List Char → Bool
  | [], _ => true
  | _ :: _, [] => false
  | p :: ps, c :: cs => p == c && listStartsWith ps cs

/-- Does the string `s` begin with the string `pre`? -/
def strStartsWith (s pre : String) : Bool :=
  listStartsWith pre.data s.data

/-- Rust `Path::join`: if the argument is absolute (begins with `'/'`) it
*replaces* the base path entirely; otherwise it is appended after a
separator.  An empty argument leaves a trailing separator, which we drop
since it is path-equivalent. -/
def pathJoin (root sub : String) : String :=
  if strStartsWith sub "/" then sub
  else if sub = "" then root
  else root ++ "/" ++ sub

/-- `server.rs` line 157 (`handle_put`): `let dest = root.join(&clean_path);`
(identical resolution in `handle_get` line 282). -/
def resolvePath (root path : String) : String :=
  pathJoin root (cleanPath path)

/-- The confinement property the spec promises: the resolved path is the
root itself or lies strictly below it. -/
def isDescendantOf (p root : String) : Bool :=
  p == root || strStartsWith p (root ++ "/")

/-- The sanitisation exactly as the claim words it: strip a *single*
leading `'/'` (one slash, not more), then remove all occurrences of the
substring `".."`. -/
def cleanPathSingleSlash (path : String) : String :=
  match path.data with
  | '/' :: rest => ⟨removeDotDot rest⟩
  | cs => ⟨removeDotDot cs⟩

theorem trimStartSlashes_eq_dropWhile (cs : List Char) :
    trimStartSlashes cs = cs.dropWhile (fun c => c == '/') := by
  induction cs with
  | nil => rfl
  | cons c rest ih =>
    by_cases h : c = '/'
    · subst h
      rw [trimStartSlashes, List.dropWhile_cons]
      simpa using ih
    · rw [List.dropWhile_cons]
      have hne : (c == '/') = false := by simp [h]
      rw [hne]
      simp only [Bool.false_eq_true, if_false]
      rw [trimStartSlashes.eq_def]
      cases rest <;> split <;> simp_all

theorem cleanPath_slash_cons (s : List Char) :
    cleanPath ⟨'/' :: s⟩ = cleanPath ⟨s⟩ := by
  simp [cleanPath, trimStartSlashes]

/-- C1: the claim says no client-supplied path can make the handler compute a
filesystem path outside the configured root.  The code violates this: on
input `"../../../tmp/evil"` (the spec's own traversal-rejection scenario) the
`".."`-removal leaves the absolute path `"///tmp/evil"`, and Rust's
`Path::join` with an absolute argument discards the root, so the handler
touches `/tmp/evil`, outside `/srv/data`. -/
theorem c1_confinement_escape :
    resolvePath "/srv/data" "../../../tmp/evil" = "///tmp/evil" ∧
    isDescendantOf (resolvePath "/srv/data" "../../../tmp/evil") "/srv/data" = false ∧
    resolvePath "/srv/data" "../etc/passwd" = "/etc/passwd" ∧
    isDescendantOf (resolvePath "/srv/data" "../etc/passwd") "/srv/data" = false := by
  decide

/-- C2 counterexample: the claim says only the first `'/'` of a leading
`"//"` is stripped, but Rust's `trim_start_matches('/')` strips *all*
leading slashes: on `"//a"` the code yields `"a"`, the claim's
single-slash policy yields `"/a"`. -/
theorem c2_counterexample :
    cleanPath "//a" = "a" ∧
    cleanPathSingleSlash "//a" = "/a" ∧
    cleanPath "//a" ≠ cleanPathSingleSlash "//a" := by
  decide

/-- C2 (amended): the sanitisation strips *all* leading `'/'` characters
(not just one), then removes all occurrences of the substring `".."`; the
handlers join the result onto the root.  In particular a leading slash can
always be dropped without changing the result. -/
theorem c2_amended_sanitisation :
    ∀ s root : String,
      cleanPath s = ⟨removeDotDot (s.data.dropWhile (fun c => c == '/'))⟩ ∧
      cleanPath ("/" ++ s) = cleanPath s ∧
      resolvePath root s = pathJoin root (cleanPath s) := by
  intro s root
  refine ⟨?_, ?_, rfl⟩
  · simp [cleanPath, trimStartSlashes_eq_dropWhile]
  · have h : ("/" ++ s).data = '/' :: s.data := by
      simp
    simp only [cleanPath, h]
    rfl

/-! ## Protocol messages (protocol.rs)

Rust `String` field values are modelled as their UTF-8 byte sequences
(`List Nat`), which is what the wire codec actually transports; bytes are
unconstrained naturals, a superset of real byte values. -/

abbrev ByteStr := List Nat

/-- ASCII view of a Lean string literal as protocol bytes. -/
def asciiStr (s : String) : ByteStr :=
  s.data.map Char.toNat

/-- protocol.rs `FileEntry`: `modified` is `None` unless long-format listing
was requested (serde skips serialising it when `None`). -/
structure FileEntry where
  name : ByteStr
  is_dir : Bool
  size : Nat
  modified : Option Nat
  deriving DecidableEq, Repr

/-- protocol.rs `Response` (internally tagged with `status`). -/
inductive Response where
  | Ok : Response
  | Done (written : Nat) : Response
  | List (entries : List FileEntry) : Response
  | File (size : Nat) : Response
  | Status (root : ByteStr) (total_size : Nat) (file_count : Nat) : Response
  | Error (message : ByteStr) : Response
  deriving DecidableEq, Repr

/-- protocol.rs `Request` (internally tagged with `cmd`). -/
inductive Request where
  | Put (path : ByteStr) (size : Nat) (hash : Option ByteStr) : Request
  | List (path : ByteStr) (recursive : Bool) (long : Bool) : Request
  | Get (path : ByteStr) : Request
  | Status : Request
  deriving DecidableEq, Repr

/-! ## Put handler (server.rs, `handle_put`)

The payload stream is modelled as the list of bytes the peer delivers
before half-closing; a `read` of up to `k` bytes returns
`min k remaining` bytes (and `0` exactly at end of stream, matching
`recv.read(..).await?.unwrap_or(0)`). -/

/-- server.rs line 172: `let mut buf = vec![0u8; 64 * 1024];` -/
def chunkSize : Nat := 64 * 1024

/-- The receive loop of `handle_put` (server.rs lines 174-182): while fewer
than `size` bytes have been received, read up to
`min chunkSize (size - received)` bytes; stop at end of stream.  Returns
the bytes written to the destination file and the unconsumed remainder of
the stream. -/
def putLoop (size received : Nat) (stream : List Nat) : List Nat × List Nat :=
  if _h : received < size then
    let toRead := min chunkSize (size - received)
    let n := min toRead stream.length
    if hn : n = 0 then ([], stream)
    else
      let rest := putLoop size (received + n) (stream.drop n)
      (stream.take n ++ rest.1, rest.2)
  else ([], stream)
termination_by size - received
decreasing_by
  simp only [toRead, n] at hn ⊢
  omega

/-- The observable outcome of `handle_put` (server.rs lines 147-193):
destination path, file contents written, the `written` counter, the number
of stream bytes consumed, and the responses sent, in order. -/
structure PutResult where
  dest : String
  fileBytes : List Nat
  written : Nat
  consumed : Nat
  responses : List Response
  deriving DecidableEq, Repr

/-- server.rs `handle_put`: sanitise the path, join onto the root, respond
`Ok`, receive at most `size` bytes in 64 KiB chunks into the destination
file, respond `Done{written}` with the actual count received.  The `hash`
argument is bound as `_hash` in the source and never used. -/
def handlePut (root path : String) (size : Nat) (hash : Option ByteStr)
    (stream : List Nat) : PutResult :=
  let clean := cleanPath path
  let dest := pathJoin root clean
  let r := putLoop size 0 stream
  { dest := dest
    fileBytes := r.1
    written := r.1.length
    consumed := stream.length - r.2.length
    responses := [Response.Ok, Response.Done r.1.length] }

theorem putLoop_eq (size received : Nat) (stream : List Nat) :
    putLoop size received stream =
      (stream.take (min (size - received) stream.length),
       stream.drop (min (size - received) stream.length)) := by
  induction received, stream using putLoop.induct size with
  | case1 received stream h toRead n hn =>
    rw [putLoop]
    simp only [dif_pos h]
    simp only [toRead, n, chunkSize] at hn ⊢
    rw [dif_pos hn]
    have hs : stream = [] := by
      have : stream.length = 0 := by omega
      exact List.eq_nil_of_length_eq_zero this
    subst hs
    simp
  | case2 received stream h toRead n hn ih =>
    rw [putLoop]
    simp only [dif_pos h]
    simp only [toRead, n] at hn ih ⊢
    rw [dif_neg hn]
    simp only [ih]
    have hmin : min (size - received) stream.length
        = (min (min chunkSize (size - received)) stream.length)
          + min (size - (received + min (min chunkSize (size - received)) stream.length))
              (stream.drop (min (min chunkSize (size - received)) stream.length)).length := by
      simp only [chunkSize, List.length_drop]
      omega
    simp only [Prod.mk.injEq]
    refine ⟨?_, ?_⟩
    · rw [hmin, List.take_add]
    · rw [List.drop_drop, hmin]
  | case3 received stream h =>
    rw [putLoop]
    simp only [dif_neg h]
    have : size - received = 0 := by omega
    rw [this]
    simp

/-- Closed form of `handle_put`'s observable behaviour: the destination is
the confined join, the file receives the first `min size |stream|` payload
bytes, and `Done` reports that same count. -/
theorem handlePut_spec (root path : String) (size : Nat) (hash : Option ByteStr)
    (stream : List Nat) :
    handlePut root path size hash stream =
      { dest := pathJoin root (cleanPath path)
        fileBytes := stream.take (min size stream.length)
        written := min size stream.length
        consumed := min size stream.length
        responses := [Response.Ok, Response.Done (min size stream.length)] } := by
  unfold handlePut
  rw [putLoop_eq]
  simp only [Nat.sub_zero, List.length_take, List.length_drop, PutResult.mk.injEq,
    List.cons.injEq, Response.Done.injEq, and_true, true_and]
  omega

/-- C3: for a `Put` declaring size `S` over a stream that delivers
`stream` bytes before half-closing, the server consumes at most `S` payload
bytes, and `Done{written}` reports exactly the bytes actually received —
in particular, when the sender closes early, the smaller actual count. -/
theorem c3_put_size_honesty (root path : String) (size : Nat)
    (hash : Option ByteStr) (stream : List Nat) :
    (handlePut root path size hash stream).consumed = min size stream.length ∧
    (handlePut root path size hash stream).consumed ≤ size ∧
    (handlePut root path size hash stream).responses
      = [Response.Ok,
         Response.Done (handlePut root path size hash stream).consumed] ∧
    (stream.length < size →
      (handlePut root path size hash stream).consumed = stream.length) := by
  rw [handlePut_spec]
  exact ⟨rfl, Nat.min_le_left _ _, rfl,
    fun h => (by omega : min size stream.length = stream.length)⟩

theorem c3_put_size_honesty_witness :
    (handlePut "/srv/data" "notes.txt" 5 none [104, 105, 33]).consumed = 3 := by
  exact (c3_put_size_honesty "/srv/data" "notes.txt" 5 none [104, 105, 33]).2.2.2
    (by decide)

/-- C9: the server never reads the `hash` field of a `Put` request (bound
as `_hash` in `handle_put`): two requests differing only in `hash` produce
identical responses, file bytes, destination, and stream consumption. -/
theorem c9_hash_never_checked (root path : String) (size : Nat)
    (h1 h2 : Option ByteStr) (stream : List Nat) :
    handlePut root path size h1 stream = handlePut root path size h2 stream := rfl

/-! ## Get handler (server.rs, `handle_get`)

The filesystem is modelled as a metadata lookup: `none` when
`fs::metadata` fails (e.g. the path does not exist), otherwise a regular
file with its contents, or a non-file (directory, etc.). -/

/-- Result of `fs::metadata` on a path, as `handle_get` consumes it. -/
inductive FsMeta where
  | file (contents : List Nat) : FsMeta
  | nonfile : FsMeta
  deriving DecidableEq, Repr

/-- The send loop of `handle_get` (server.rs lines 293-301): while fewer
than `size` bytes have been sent, read up to 64 KiB from the file and
write it to the stream; stop at end of file. -/
def getLoop (file : List Nat) (size sent : Nat) : List Nat :=
  if _h : sent < size then
    let n := min chunkSize file.length
    if hn : n = 0 then []
    else file.take n ++ getLoop (file.drop n) size (sent + n)
  else []
termination_by size - sent
decreasing_by
  simp only [n, chunkSize] at hn ⊢
  omega

theorem getLoop_all (file : List Nat) (size sent : Nat)
    (h : sent + file.length = size) : getLoop file size sent = file := by
  induction file, size, sent using getLoop.induct with
  | case1 file size sent h' n hn =>
    rw [getLoop]
    simp only [dif_pos h']
    simp only [n, chunkSize] at hn ⊢
    rw [dif_pos hn]
    have : file = [] := by
      have : file.length = 0 := by omega
      exact List.eq_nil_of_length_eq_zero this
    simp [this]
  | case2 file size sent h' n hn ih =>
    rw [getLoop]
    simp only [dif_pos h']
    simp only [n, chunkSize] at hn ih ⊢
    rw [dif_neg hn]
    rw [ih]
    · exact List.take_append_drop _ _
    · simp only [List.length_drop]
      omega
  | case3 file size sent h' =>
    rw [getLoop]
    simp only [dif_neg h']
    have : file.length = 0 := by omega
    simp [List.eq_nil_of_length_eq_zero this]

/-- server.rs `handle_get` (lines 276-304): resolve the path exactly as
`handle_put` does; if `fs::metadata` fails the error propagates (`?`) and
*no* response is written; if the metadata is not a regular file, respond
`Error{"Not a file"}` and return normally; otherwise respond `File{size}`
and stream the file contents in 64 KiB chunks.  The result is the list of
responses sent plus the raw payload bytes, or the propagated error. -/
def handleGet (fs : String → Option FsMeta) (root path : String) :
    Except String (List Response × List Nat) :=
  let file_path := resolvePath root path
  match fs file_path with
  | none => Except.error "metadata"
  | some FsMeta.nonfile => Except.ok ([Response.Error (asciiStr "Not a file")], [])
  | some (FsMeta.file contents) =>
      Except.ok ([Response.File contents.length], getLoop contents contents.length 0)

/-- A filesystem with no entries at all. -/
def emptyFs : String → Option FsMeta := fun _ => none

/-- C7 counterexample: on a `Get` whose resolved path does not exist,
`fs::metadata` fails and `handle_get` propagates the error — the claim's
promised `Error{message}` response is never sent. -/
theorem c7_counterexample :
    handleGet emptyFs "/srv/data" "missing.txt" = Except.error "metadata" ∧
    ¬ ∃ (msg : ByteStr) (payload : List Nat),
        handleGet emptyFs "/srv/data" "missing.txt"
          = Except.ok ([Response.Error msg], payload) := by
  refine ⟨rfl, ?_⟩
  rintro ⟨msg, payload, hcontra⟩
  rw [show handleGet emptyFs "/srv/data" "missing.txt" = Except.error "metadata" from rfl]
    at hcontra
  exact absurd hcontra (by simp)

/-- C7 (amended): if the resolved path *exists* but is not a regular file,
the server responds `Error{"Not a file"}` and the stream closes normally;
if it is a regular file of `size` bytes, the server responds `File{size}`
and then streams exactly those `size` bytes; but if metadata resolution
fails (e.g. the path does not exist), the handler fails without sending
any response. -/
theorem c7_get_error_paths (fs : String → Option FsMeta) (root path : String) :
    (fs (resolvePath root path) = none →
      handleGet fs root path = Except.error "metadata") ∧
    (fs (resolvePath root path) = some FsMeta.nonfile →
      handleGet fs root path
        = Except.ok ([Response.Error (asciiStr "Not a file")], [])) ∧
    (∀ contents, fs (resolvePath root path) = some (FsMeta.file contents) →
      handleGet fs root path
        = Except.ok ([Response.File contents.length], contents)) := by
  refine ⟨fun h => ?_, fun h => ?_, fun contents h => ?_⟩
  · simp [handleGet, h]
  · simp [handleGet, h]
  · simp [handleGet, h]
    exact getLoop_all contents contents.length 0 (by omega)

/-- A one-file filesystem serving `hello` at `/srv/data/notes.txt`. -/
def oneFileFs : String → Option FsMeta := fun p =>
  if p = "/srv/data/notes.txt" then some (FsMeta.file (asciiStr "hello")) else none

theorem c7_get_error_paths_witness :
    handleGet oneFileFs "/srv/data" "notes.txt"
      = Except.ok ([Response.File 5], asciiStr "hello") := by
  exact (c7_get_error_paths oneFileFs "/srv/data" "notes.txt").2.2
    (asciiStr "hello") (by decide)

/-! ## Audit trail (audit.rs)

`AuditEvent` is transcribed from audit.rs lines 23-35; note that it has
*nine* variants — there is no `FileRequest` constructor, although
server.rs line 137 writes `AuditEvent::FileRequest` (the crate cannot
compile as committed).  The dispatcher model below therefore uses its own
event-name type for the names server.rs refers to. -/

/-- audit.rs `AuditEvent`: the nine variants the enum actually defines. -/
inductive AuditEvent where
  | ServerStart : AuditEvent
  | ServerStop : AuditEvent
  | Connect : AuditEvent
  | Disconnect : AuditEvent
  | FileReceived : AuditEvent
  | FileRejected : AuditEvent
  | ListRequest : AuditEvent
  | StatusRequest : AuditEvent
  | Error : AuditEvent
  deriving DecidableEq, Repr

/-- Enumeration of every `AuditEvent` variant. -/
def AuditEvent.all : List AuditEvent :=
  [.ServerStart, .ServerStop, .Connect, .Disconnect, .FileReceived,
   .FileRejected, .ListRequest, .StatusRequest, .Error]

/-- C8: the audit event type actually defined by audit.rs is a closed set
of *nine* variants — `ServerStart, ServerStop, Connect, Disconnect,
FileReceived, FileRejected, ListRequest, StatusRequest, Error` — with no
`FileRequest` constructor; the ten-variant set the claim names is not what
the code defines (server.rs line 137 nevertheless references
`AuditEvent::FileRequest`, so the crate does not compile). -/
theorem c8_nine_variants :
    AuditEvent.all.length = 9 ∧ ∀ e : AuditEvent, e ∈ AuditEvent.all := by
  refine ⟨rfl, fun e => ?_⟩
  cases e <;> simp [AuditEvent.all]

/-- audit.rs `AuditEntry`.  The `timestamp` (`Local::now()` in
`AuditEntry::new`) is modelled as an abstract clock value supplied by the
environment. -/
structure AuditEntry where
  timestamp : Nat
  event : AuditEvent
  remote : Option ByteStr
  path : Option ByteStr
  size : Option Nat
  success : Bool
  message : Option ByteStr
  deriving DecidableEq, Repr

/-- audit.rs `AuditEntry::new`: all optional fields `None`,
`success = true`. -/
def AuditEntry.new (now : Nat) (event : AuditEvent) : AuditEntry :=
  { timestamp := now, event := event, remote := none, path := none,
    size := none, success := true, message := none }

/-! ### The bounded audit channel (C5)

audit.rs line 84 creates `mpsc::channel::<AuditEntry>(100)`; every
producer calls `tx.send(entry).await` (audit.rs line 100, server.rs lines
58/67/73/117/126/132/137) and discards the result.  `channelSend` models
tokio's bounded `mpsc::Sender::send`: with free capacity the entry is
enqueued at the back and the call returns at once; on a full queue the
call *awaits* until the consumer frees capacity — it never drops a
message. -/

/-- Outcome of one `send(entry).await` against the queue state. -/
inductive SendResult where
  | sent (q : List AuditEntry) : SendResult
  | wouldBlock : SendResult
  deriving DecidableEq, Repr

def channelSend (cap : Nat) (q : List AuditEntry) (e : AuditEntry) : SendResult :=
  if q.length < cap then .sent (q ++ [e]) else .wouldBlock

/-- audit.rs line 84: the channel capacity is 100. -/
def auditChannelCapacity : Nat := 100

/-- Recording an audit entry: `let _ = tx.send(entry).await` against the
capacity-100 channel. -/
def auditRecord (q : List AuditEntry) (e : AuditEntry) : SendResult :=
  channelSend auditChannelCapacity q e

/-- C5 counterexample: with the audit queue at its full capacity of 100
pending entries, a producer's `send(..).await` suspends until the writer
drains the queue (`wouldBlock`) — no pending entry is dropped to let the
caller continue, contrary to the claimed drop-on-full semantics. -/
theorem c5_counterexample :
    (List.replicate 100 (AuditEntry.new 0 .Connect)).length
        = auditChannelCapacity ∧
    auditRecord (List.replicate 100 (AuditEntry.new 0 .Connect))
        (AuditEntry.new 7 .Disconnect)
      = SendResult.wouldBlock := by
  constructor
  · simp [auditChannelCapacity]
  · simp [auditRecord, channelSend, auditChannelCapacity]

/-- C5 (amended): the audit channel favours backpressure over dropping;
while the queue is below its capacity of 100, recording enqueues the event
and returns at once, and when the queue is full the producer blocks
awaiting capacity — no entry is ever dropped. -/
theorem c5_send_backpressure (q : List AuditEntry) (e : AuditEntry) :
    (q.length < auditChannelCapacity → auditRecord q e = .sent (q ++ [e])) ∧
    (auditChannelCapacity ≤ q.length → auditRecord q e = .wouldBlock) := by
  constructor <;> intro h
  · simp [auditRecord, channelSend, h]
  · simp [auditRecord, channelSend, Nat.not_lt.mpr h]

theorem c5_send_backpressure_witness :
    auditRecord [] (AuditEntry.new 0 .Connect)
      = SendResult.sent [AuditEntry.new 0 .Connect] := by
  simpa using (c5_send_backpressure [] (AuditEntry.new 0 .Connect)).1 (by decide)

/-! ### The durable writer (C6) -/

/-- The filesystem operations the audit writer can perform.  `flush` is in
the vocabulary so that its absence is expressible; audit.rs never issues
it. -/
inductive FsOp where
  | openAppend (path : String) : FsOp
  | writeRecord (e : AuditEntry) : FsOp
  | writeNewline : FsOp
  | flush : FsOp
  deriving DecidableEq, Repr

/-- audit.rs `write_entry` (lines 109-121): open the log file with
`create(true).append(true)` — on *every* call — then write the JSON
serialisation of the entry and a newline.  No flush is issued. -/
def write_entry (path : String) (e : AuditEntry) : List FsOp :=
  [.openAppend path, .writeRecord e, .writeNewline]

/-- The writer task (audit.rs lines 87-93): for each entry received from
the channel, run `write_entry`. -/
def writerTask (path : String) (received : List AuditEntry) : List FsOp :=
  (received.map (write_entry path)).flatten

def countOpens (t : List FsOp) : Nat :=
  t.countP fun op => match op with | .openAppend _ => true | _ => false

def countRecords (t : List FsOp) : Nat :=
  t.countP fun op => match op with | .writeRecord _ => true | _ => false

def countFlushes (t : List FsOp) : Nat :=
  t.countP fun op => match op with | .flush => true | _ => false

/-- C6 counterexample: delivering two events to the writer opens the log
file twice — the file is opened once *per event*, not once at logger
start — and the trace contains no flush at all, contrary to "flushed
after every write". -/
theorem c6_counterexample :
    countOpens (writerTask "audit.jsonl"
        [AuditEntry.new 0 .ServerStart, AuditEntry.new 1 .Connect]) = 2 ∧
    FsOp.flush ∉ writerTask "audit.jsonl"
        [AuditEntry.new 0 .ServerStart, AuditEntry.new 1 .Connect] := by
  decide

/-- C6 (amended): the writer appends exactly one JSON-Lines record per
received event, in order, but re-opens the log file (create + append) for
every single event rather than opening it once at logger start, and never
issues an explicit flush. -/
theorem c6_one_record_per_event (path : String) (es : List AuditEntry) :
    countRecords (writerTask path es) = es.length ∧
    countOpens (writerTask path es) = es.length ∧
    countFlushes (writerTask path es) = 0 := by
  induction es with
  | nil => exact ⟨rfl, rfl, rfl⟩
  | cons e rest ih =>
    refine ⟨?_, ?_, ?_⟩ <;>
      simp [writerTask, write_entry, countRecords, countOpens, countFlushes,
        List.countP_cons] at ih ⊢ <;>
      omega

/-! ## Stream dispatcher (server.rs, `handle_stream`, lines 113-144)

The audit-event names referenced by `handle_stream` (including
`FileRequest`, which audit.rs does not define — see C8). -/

inductive DispatchEvent where
  | FileReceived : DispatchEvent
  | ListRequest : DispatchEvent
  | StatusRequest : DispatchEvent
  | FileRequest : DispatchEvent
  deriving DecidableEq, Repr

/-- The audit entry as `handle_stream` builds it (`AuditEntry::new`
followed by `with_*` builders). -/
structure StreamAudit where
  event : DispatchEvent
  remote : Option ByteStr
  path : Option ByteStr
  size : Option Nat
  success : Bool
  message : Option ByteStr
  deriving DecidableEq, Repr

/-- One step of the per-stream task: an audit send or a handler run. -/
inductive StreamAction where
  | audit (e : StreamAudit) : StreamAction
  | runPut : StreamAction
  | runList : StreamAction
  | runStatus : StreamAction
  | runGet : StreamAction
  deriving DecidableEq, Repr

/-- server.rs `handle_stream` dispatch (lines 113-142): `Put` runs its
handler first and then audits `FileReceived` with `success` equal to the
handler's outcome (message `"OK"` on success, a debug rendering `errDbg`
of the error otherwise); `List`, `Status` and `Get` audit their event
*before* running the handler, with the `success` field left at
`AuditEntry::new`'s default `true`. -/
def handleStream (remote : ByteStr) (req : Request) (outcome : Bool)
    (errDbg : ByteStr) : List StreamAction :=
  match req with
  | .Put path size _hash =>
      [.runPut,
       .audit { event := .FileReceived, remote := some remote,
                path := some path, size := some size, success := outcome,
                message := some (if outcome then asciiStr "OK" else errDbg) }]
  | .List path _recursive _long =>
      [.audit { event := .ListRequest, remote := some remote,
                path := some path, size := none, success := true,
                message := none },
       .runList]
  | .Status =>
      [.audit { event := .StatusRequest, remote := some remote,
                path := none, size := none, success := true,
                message := none },
       .runStatus]
  | .Get path =>
      [.audit { event := .FileRequest, remote := some remote,
                path := some path, size := none, success := true,
                message := none },
       .runGet]

/-- C10: for `List`, `Status` and `Get` the audit entry is emitted before
the handler runs, always carries `success = true`, and does not depend on
the handler's outcome; only `Put` runs its handler first and audits
`FileReceived` with the handler's actual outcome in `success`. -/
theorem c10_audit_ordering (remote : ByteStr) (outcome : Bool)
    (errDbg : ByteStr) :
    (∀ path recursive long,
      handleStream remote (.List path recursive long) outcome errDbg
        = [.audit { event := .ListRequest, remote := some remote,
                    path := some path, size := none, success := true,
                    message := none },
           .runList] ∧
      handleStream remote (.List path recursive long) outcome errDbg
        = handleStream remote (.List path recursive long) (!outcome) errDbg) ∧
    (handleStream remote .Status outcome errDbg
        = [.audit { event := .StatusRequest, remote := some remote,
                    path := none, size := none, success := true,
                    message := none },
           .runStatus] ∧
      handleStream remote .Status outcome errDbg
        = handleStream remote .Status (!outcome) errDbg) ∧
    (∀ path,
      handleStream remote (.Get path) outcome errDbg
        = [.audit { event := .FileRequest, remote := some remote,
                    path := some path, size := none, success := true,
                    message := none },
           .runGet] ∧
      handleStream remote (.Get path) outcome errDbg
        = handleStream remote (.Get path) (!outcome) errDbg) ∧
    (∀ path size hash,
      handleStream remote (.Put path size hash) outcome errDbg
        = [.runPut,
           .audit { event := .FileReceived, remote := some remote,
                    path := some path, size := some size, success := outcome,
                    message := some (if outcome then asciiStr "OK"
                                     else errDbg) }]) := by
  exact ⟨fun _ _ _ => ⟨rfl, rfl⟩, ⟨rfl, rfl⟩, fun _ => ⟨rfl, rfl⟩,
    fun _ _ _ => rfl⟩

/-! ## Wire codec (server.rs `send_response` / `handle_stream`; client.rs
`send_request` / `recv_response`; protocol.rs serde derives)

Messages are framed as a 4-byte big-endian length prefix (the payload
length cast `as u32`) followed by that many bytes of serde_json encoding.
`responseJson` / `requestJson` model `serde_json::to_vec` for the
derives of protocol.rs (internally tagged, `snake_case`, `hash` and
`modified` skipped when `None`, strings escaped as serde_json does);
`parseResponse` / `parseRequest` model `serde_json::from_slice` on the
canonical byte encodings that `to_vec` produces — the only spellings that
ever occur on this wire, where every sender uses `to_vec`.  Strings are
byte sequences (unconstrained naturals, a superset of real bytes). -/


def hexDigitByte (d : Nat) : Nat :=
  if d < 10 then 48 + d else 87 + d

def escapeByte (b : Nat) : List Nat :=
  if b = 34 then [92, 34]
  else if b = 92 then [92, 92]
  else if b = 8 then [92, 98]
  else if b = 9 then [92, 116]
  else if b = 10 then [92, 110]
  else if b = 12 then [92, 102]
  else if b = 13 then [92, 114]
  else if b < 32 then [92, 117, 48, 48, hexDigitByte (b / 16), hexDigitByte (b % 16)]
  else [b]

def jsonStr (s : ByteStr) : List Nat :=
  34 :: (s.map escapeByte).flatten ++ [34]

def natDecAux : Nat → List Nat → List Nat
  | n, acc => if n < 10 then (48 + n) :: acc else natDecAux (n / 10) ((48 + n % 10) :: acc)
termination_by n => n
decreasing_by omega

def natDec (n : Nat) : List Nat := natDecAux n []

def boolLit : Bool → List Nat
  | true => asciiStr "true"
  | false => asciiStr "false"

def entryJsonBody (e : FileEntry) : List Nat :=
  asciiStr "\"name\":" ++ jsonStr e.name
    ++ asciiStr ",\"is_dir\":" ++ boolLit e.is_dir
    ++ asciiStr ",\"size\":" ++ natDec e.size
    ++ (match e.modified with
        | none => []
        | some m => asciiStr ",\"modified\":" ++ natDec m)
    ++ [125]

def entryJson (e : FileEntry) : List Nat :=
  123 :: entryJsonBody e

def sepComma : List (List Nat) → List Nat
  | [] => []
  | [x] => x
  | x :: y :: rest => x ++ 44 :: sepComma (y :: rest)

def responseJson : Response → List Nat
  | .Ok => 123 :: asciiStr "\"status\":" ++ jsonStr (asciiStr "ok") ++ [125]
  | .Done w => 123 :: asciiStr "\"status\":" ++ jsonStr (asciiStr "done")
      ++ asciiStr ",\"written\":" ++ natDec w ++ [125]
  | .List es => 123 :: asciiStr "\"status\":" ++ jsonStr (asciiStr "list")
      ++ asciiStr ",\"entries\":[" ++ sepComma (es.map entryJson) ++ [93, 125]
  | .File s => 123 :: asciiStr "\"status\":" ++ jsonStr (asciiStr "file")
      ++ asciiStr ",\"size\":" ++ natDec s ++ [125]
  | .Status r t f => 123 :: asciiStr "\"status\":" ++ jsonStr (asciiStr "status")
      ++ asciiStr ",\"root\":" ++ jsonStr r ++ asciiStr ",\"total_size\":" ++ natDec t
      ++ asciiStr ",\"file_count\":" ++ natDec f ++ [125]
  | .Error m => 123 :: asciiStr "\"status\":" ++ jsonStr (asciiStr "error")
      ++ asciiStr ",\"message\":" ++ jsonStr m ++ [125]

def requestJson : Request → List Nat
  | .Put path size hash => 123 :: asciiStr "\"cmd\":" ++ jsonStr (asciiStr "put")
      ++ asciiStr ",\"path\":" ++ jsonStr path ++ asciiStr ",\"size\":" ++ natDec size
      ++ (match hash with
          | none => []
          | some h => asciiStr ",\"hash\":" ++ jsonStr h)
      ++ [125]
  | .List path r l => 123 :: asciiStr "\"cmd\":" ++ jsonStr (asciiStr "list")
      ++ asciiStr ",\"path\":" ++ jsonStr path ++ asciiStr ",\"recursive\":" ++ boolLit r
      ++ asciiStr ",\"long\":" ++ boolLit l ++ [125]
  | .Get path => 123 :: asciiStr "\"cmd\":" ++ jsonStr (asciiStr "get")
      ++ asciiStr ",\"path\":" ++ jsonStr path ++ [125]
  | .Status => 123 :: asciiStr "\"cmd\":" ++ jsonStr (asciiStr "status") ++ [125]



/-! ### JSON parsing (models serde_json::from_slice on canonical encodings) -/

def hexVal (b : Nat) : Option Nat :=
  if 48 ≤ b ∧ b ≤ 57 then some (b - 48)
  else if 97 ≤ b ∧ b ≤ 102 then some (b - 87)
  else if 65 ≤ b ∧ b ≤ 70 then some (b - 55)
  else none

def escChar (e : Nat) : Option Nat :=
  if e = 34 then some 34
  else if e = 92 then some 92
  else if e = 98 then some 8
  else if e = 116 then some 9
  else if e = 110 then some 10
  else if e = 102 then some 12
  else if e = 114 then some 13
  else none

def parseStrBody : List Nat → Option (ByteStr × List Nat)
  | [] => none
  | b :: rest =>
    if b = 34 then some ([], rest)
    else if b = 92 then
      match rest with
      | [] => none
      | e :: rest2 =>
        if e = 117 then
          match rest2 with
          | h1 :: h2 :: h3 :: h4 :: rest3 =>
            match hexVal h1, hexVal h2, hexVal h3, hexVal h4 with
            | some v1, some v2, some v3, some v4 =>
              (fun p => ((((v1 * 16 + v2) * 16 + v3) * 16 + v4) :: p.1, p.2))
                <$> parseStrBody rest3
            | _, _, _, _ => none
          | _ => none
        else
          match escChar e with
          | some c => (fun p => (c :: p.1, p.2)) <$> parseStrBody rest2
          | none => none
    else (fun p => (b :: p.1, p.2)) <$> parseStrBody rest

def parseJsonStr : List Nat → Option (ByteStr × List Nat)
  | b :: rest => if b = 34 then parseStrBody rest else none
  | [] => none

def expectBytes : List Nat → List Nat → Option (List Nat)
  | [], bs => some bs
  | _ :: _, [] => none
  | l :: ls, b :: bs => if b = l then expectBytes ls bs else none

def isDigitByte (b : Nat) : Bool := 48 ≤ b && b ≤ 57

def parseNatAux : Nat → List Nat → Nat × List Nat
  | acc, [] => (acc, [])
  | acc, b :: rest =>
    if isDigitByte b then parseNatAux (acc * 10 + (b - 48)) rest
    else (acc, b :: rest)

def parseNat : List Nat → Option (Nat × List Nat)
  | [] => none
  | b :: rest =>
    if isDigitByte b then some (parseNatAux 0 (b :: rest))
    else none

def parseBool (bs : List Nat) : Option (Bool × List Nat) :=
  match expectBytes (asciiStr "true") bs with
  | some rest => some (true, rest)
  | none =>
    match expectBytes (asciiStr "false") bs with
    | some rest => some (false, rest)
    | none => none

def parseEntry (bs : List Nat) : Option (FileEntry × List Nat) :=
  (expectBytes (123 :: asciiStr "\"name\":") bs).bind fun bs1 =>
  (parseJsonStr bs1).bind fun p1 =>
  (expectBytes (asciiStr ",\"is_dir\":") p1.2).bind fun bs2 =>
  (parseBool bs2).bind fun p2 =>
  (expectBytes (asciiStr ",\"size\":") p2.2).bind fun bs3 =>
  (parseNat bs3).bind fun p3 =>
  match p3.2 with
  | [] => none
  | b :: rest4 =>
    if b = 125 then some (⟨p1.1, p2.1, p3.1, none⟩, rest4)
    else if b = 44 then
      (expectBytes (asciiStr "\"modified\":") rest4).bind fun bs5 =>
      (parseNat bs5).bind fun p4 =>
      match p4.2 with
      | [] => none
      | c :: rest5 => if c = 125 then some (⟨p1.1, p2.1, p3.1, some p4.1⟩, rest5) else none
    else none

def parseEntriesAux : Nat → List Nat → Option (List FileEntry × List Nat)
  | 0, _ => none
  | fuel + 1, bs =>
    (parseEntry bs).bind fun p =>
    match p.2 with
    | [] => none
    | b :: bs2 =>
      if b = 44 then (parseEntriesAux fuel bs2).map fun q => (p.1 :: q.1, q.2)
      else if b = 93 then some ([p.1], bs2)
      else none

def parseEntries (fuel : Nat) (bs : List Nat) : Option (List FileEntry × List Nat) :=
  match bs with
  | [] => none
  | b :: rest => if b = 93 then some ([], rest) else parseEntriesAux fuel (b :: rest)

def parseResponse (bs : List Nat) : Option Response :=
  (expectBytes (123 :: asciiStr "\"status\":") bs).bind fun bs1 =>
  (parseJsonStr bs1).bind fun pt =>
  let tag := pt.1
  let bs2 := pt.2
  if tag = asciiStr "ok" then
    if bs2 = [125] then some Response.Ok else none
  else if tag = asciiStr "done" then
    (expectBytes (asciiStr ",\"written\":") bs2).bind fun bs3 =>
    (parseNat bs3).bind fun p =>
    if p.2 = [125] then some (Response.Done p.1) else none
  else if tag = asciiStr "list" then
    (expectBytes (asciiStr ",\"entries\":[") bs2).bind fun bs3 =>
    (parseEntries bs3.length bs3).bind fun p =>
    if p.2 = [125] then some (Response.List p.1) else none
  else if tag = asciiStr "file" then
    (expectBytes (asciiStr ",\"size\":") bs2).bind fun bs3 =>
    (parseNat bs3).bind fun p =>
    if p.2 = [125] then some (Response.File p.1) else none
  else if tag = asciiStr "status" then
    (expectBytes (asciiStr ",\"root\":") bs2).bind fun bs3 =>
    (parseJsonStr bs3).bind fun pr =>
    (expectBytes (asciiStr ",\"total_size\":") pr.2).bind fun bs4 =>
    (parseNat bs4).bind fun pt2 =>
    (expectBytes (asciiStr ",\"file_count\":") pt2.2).bind fun bs5 =>
    (parseNat bs5).bind fun pf =>
    if pf.2 = [125] then some (Response.Status pr.1 pt2.1 pf.1) else none
  else if tag = asciiStr "error" then
    (expectBytes (asciiStr ",\"message\":") bs2).bind fun bs3 =>
    (parseJsonStr bs3).bind fun pm =>
    if pm.2 = [125] then some (Response.Error pm.1) else none
  else none

def parseRequest (bs : List Nat) : Option Request :=
  (expectBytes (123 :: asciiStr "\"cmd\":") bs).bind fun bs1 =>
  (parseJsonStr bs1).bind fun pt =>
  let tag := pt.1
  let bs2 := pt.2
  if tag = asciiStr "put" then
    (expectBytes (asciiStr ",\"path\":") bs2).bind fun bs3 =>
    (parseJsonStr bs3).bind fun pp =>
    (expectBytes (asciiStr ",\"size\":") pp.2).bind fun bs4 =>
    (parseNat bs4).bind fun ps =>
    match ps.2 with
    | [] => none
    | b :: rest4 =>
      if b = 125 then (if rest4 = [] then some (Request.Put pp.1 ps.1 none) else none)
      else if b = 44 then
        (expectBytes (asciiStr "\"hash\":") rest4).bind fun bs5 =>
        (parseJsonStr bs5).bind fun ph =>
        if ph.2 = [125] then some (Request.Put pp.1 ps.1 (some ph.1)) else none
      else none
  else if tag = asciiStr "list" then
    (expectBytes (asciiStr ",\"path\":") bs2).bind fun bs3 =>
    (parseJsonStr bs3).bind fun pp =>
    (expectBytes (asciiStr ",\"recursive\":") pp.2).bind fun bs4 =>
    (parseBool bs4).bind fun pr =>
    (expectBytes (asciiStr ",\"long\":") pr.2).bind fun bs5 =>
    (parseBool bs5).bind fun pl =>
    if pl.2 = [125] then some (Request.List pp.1 pr.1 pl.1) else none
  else if tag = asciiStr "get" then
    (expectBytes (asciiStr ",\"path\":") bs2).bind fun bs3 =>
    (parseJsonStr bs3).bind fun pp =>
    if pp.2 = [125] then some (Request.Get pp.1) else none
  else if tag = asciiStr "status" then
    if bs2 = [125] then some Request.Status else none
  else none



theorem expectBytes_self (lit rest : List Nat) :
    expectBytes lit (lit ++ rest) = some rest := by
  induction lit with
  | nil => rfl
  | cons l ls ih => simp [expectBytes, ih]

theorem parseStrBody_quote (r : List Nat) : parseStrBody (34 :: r) = some ([], r) := by
  rw [parseStrBody.eq_def]
  simp

theorem parseStrBody_lit (b : Nat) (r : List Nat) (h1 : b ≠ 34) (h2 : b ≠ 92) :
    parseStrBody (b :: r) = (fun p => (b :: p.1, p.2)) <$> parseStrBody r := by
  rw [parseStrBody.eq_def]
  simp [h1, h2]

theorem parseStrBody_esc (e : Nat) (r : List Nat) (he : e ≠ 117) :
    parseStrBody (92 :: e :: r)
      = match escChar e with
        | some c => (fun p => (c :: p.1, p.2)) <$> parseStrBody r
        | none => none := by
  rw [parseStrBody.eq_def]
  simp [he]

theorem parseStrBody_hex (h1 h2 h3 h4 : Nat) (r : List Nat) :
    parseStrBody (92 :: 117 :: h1 :: h2 :: h3 :: h4 :: r)
      = match hexVal h1, hexVal h2, hexVal h3, hexVal h4 with
        | some v1, some v2, some v3, some v4 =>
          (fun p => ((((v1 * 16 + v2) * 16 + v3) * 16 + v4) :: p.1, p.2))
            <$> parseStrBody r
        | _, _, _, _ => none := by
  rw [parseStrBody.eq_def]
  simp

theorem hexVal_hexDigitByte (d : Nat) (h : d < 16) :
    hexVal (hexDigitByte d) = some d := by
  rcases Nat.lt_or_ge d 10 with hd | hd
  · have e : hexDigitByte d = 48 + d := if_pos hd
    rw [e]
    unfold hexVal
    rw [if_pos (show 48 ≤ 48 + d ∧ 48 + d ≤ 57 by omega)]
    exact congrArg some (by omega)
  · have e : hexDigitByte d = 87 + d := if_neg (by omega)
    rw [e]
    unfold hexVal
    rw [if_neg (show ¬(48 ≤ 87 + d ∧ 87 + d ≤ 57) by rintro ⟨ha, hb⟩; omega),
      if_pos (show 97 ≤ 87 + d ∧ 87 + d ≤ 102 by omega)]
    exact congrArg some (by omega)

theorem parseStrBody_escape (b : Nat) (tail : List Nat) :
    parseStrBody (escapeByte b ++ tail)
      = (fun p => (b :: p.1, p.2)) <$> parseStrBody tail := by
  unfold escapeByte
  split_ifs with h1 h2 h3 h4 h5 h6 h7 h8
  · subst h1
    rw [show ([92, 34] : List Nat) ++ tail = 92 :: 34 :: tail from rfl,
      parseStrBody_esc 34 tail (by decide)]
    simp [escChar]
  · subst h2
    rw [show ([92, 92] : List Nat) ++ tail = 92 :: 92 :: tail from rfl,
      parseStrBody_esc 92 tail (by decide)]
    simp [escChar]
  · subst h3
    rw [show ([92, 98] : List Nat) ++ tail = 92 :: 98 :: tail from rfl,
      parseStrBody_esc 98 tail (by decide)]
    simp [escChar]
  · subst h4
    rw [show ([92, 116] : List Nat) ++ tail = 92 :: 116 :: tail from rfl,
      parseStrBody_esc 116 tail (by decide)]
    simp [escChar]
  · subst h5
    rw [show ([92, 110] : List Nat) ++ tail = 92 :: 110 :: tail from rfl,
      parseStrBody_esc 110 tail (by decide)]
    simp [escChar]
  · subst h6
    rw [show ([92, 102] : List Nat) ++ tail = 92 :: 102 :: tail from rfl,
      parseStrBody_esc 102 tail (by decide)]
    simp [escChar]
  · subst h7
    rw [show ([92, 114] : List Nat) ++ tail = 92 :: 114 :: tail from rfl,
      parseStrBody_esc 114 tail (by decide)]
    simp [escChar]
  · have hd1 : b / 16 < 16 := by omega
    have hd2 : b % 16 < 16 := by omega
    rw [show ([92, 117, 48, 48, hexDigitByte (b / 16), hexDigitByte (b % 16)] : List Nat)
        ++ tail = 92 :: 117 :: 48 :: 48 :: hexDigitByte (b / 16)
          :: hexDigitByte (b % 16) :: tail from rfl,
      parseStrBody_hex,
      hexVal_hexDigitByte (b / 16) hd1,
      hexVal_hexDigitByte (b % 16) hd2,
      show hexVal 48 = some 0 from rfl]
    have hb : (((0 * 16 + 0) * 16 + b / 16) * 16 + b % 16) = b := by omega
    simp only [hb]
  · rw [show ([b] : List Nat) ++ tail = b :: tail from rfl, parseStrBody_lit b tail h1 h2]

theorem parseStrBody_flatten (s : ByteStr) (rest : List Nat) :
    parseStrBody ((s.map escapeByte).flatten ++ 34 :: rest) = some (s, rest) := by
  induction s with
  | nil => simpa using parseStrBody_quote rest
  | cons b s ih =>
    simp only [List.map_cons, List.flatten_cons, List.append_assoc]
    rw [parseStrBody_escape, ih]
    rfl


theorem parseJsonStr_jsonStr (s : ByteStr) (rest : List Nat) :
    parseJsonStr (jsonStr s ++ rest) = some (s, rest) := by
  have h : jsonStr s ++ rest = 34 :: ((s.map escapeByte).flatten ++ 34 :: rest) := by
    simp [jsonStr]
  rw [h]
  simp only [parseJsonStr]
  rw [if_pos trivial]
  exact parseStrBody_flatten s rest

/-- The canonical continuation after a JSON number: the next byte (if any)
is not a decimal digit. -/
def noDigitStart : List Nat → Prop
  | [] => True
  | b :: _ => isDigitByte b = false

theorem natDecAux_lt (n : Nat) (acc : List Nat) (h : n < 10) :
    natDecAux n acc = (48 + n) :: acc := by
  rw [natDecAux, if_pos h]

theorem natDecAux_ge (n : Nat) (acc : List Nat) (h : 10 ≤ n) :
    natDecAux n acc = natDecAux (n / 10) ((48 + n % 10) :: acc) := by
  rw [natDecAux, if_neg (by omega)]

theorem natDecAux_acc (n : Nat) : ∀ acc, natDecAux n acc = natDecAux n [] ++ acc := by
  induction n using Nat.strong_induction_on with
  | _ n ih =>
    intro acc
    by_cases h : n < 10
    · rw [natDecAux_lt n acc h, natDecAux_lt n [] h]
      rfl
    · rw [natDecAux_ge n acc (by omega), natDecAux_ge n [] (by omega)]
      rw [ih (n / 10) (by omega) ((48 + n % 10) :: acc),
        ih (n / 10) (by omega) [48 + n % 10]]
      simp

theorem natDec_eq_of_ge (n : Nat) (h : 10 ≤ n) :
    natDec n = natDec (n / 10) ++ [48 + n % 10] := by
  unfold natDec
  rw [natDecAux_ge n [] h, natDecAux_acc]

theorem natDec_eq_of_lt (n : Nat) (h : n < 10) : natDec n = [48 + n] := by
  unfold natDec
  rw [natDecAux_lt n [] h]

theorem natDec_digits (n : Nat) : ∀ b ∈ natDec n, isDigitByte b := by
  induction n using Nat.strong_induction_on with
  | _ n ih =>
    by_cases h : n < 10
    · rw [natDec_eq_of_lt n h]
      intro b hb
      simp at hb
      subst hb
      simp [isDigitByte]
      omega
    · rw [natDec_eq_of_ge n (by omega)]
      intro b hb
      rcases List.mem_append.mp hb with hb | hb
      · exact ih (n / 10) (by omega) b hb
      · simp at hb
        subst hb
        simp [isDigitByte]
        omega

theorem natDec_val (n : Nat) :
    (natDec n).foldl (fun a b => a * 10 + (b - 48)) 0 = n := by
  induction n using Nat.strong_induction_on with
  | _ n ih =>
    by_cases h : n < 10
    · rw [natDec_eq_of_lt n h]
      simp
    · rw [natDec_eq_of_ge n (by omega)]
      rw [List.foldl_append]
      rw [ih (n / 10) (by omega)]
      simp
      omega

theorem natDec_ne_nil (n : Nat) : natDec n ≠ [] := by
  by_cases h : n < 10
  · rw [natDec_eq_of_lt n h]
    simp
  · rw [natDec_eq_of_ge n (by omega)]
    simp

theorem parseNatAux_spec (ds : List Nat) :
    ∀ (acc : Nat) (rest : List Nat), (∀ b ∈ ds, isDigitByte b) → noDigitStart rest →
      parseNatAux acc (ds ++ rest)
        = (ds.foldl (fun a b => a * 10 + (b - 48)) acc, rest) := by
  induction ds with
  | nil =>
    intro acc rest _ hrest
    cases rest with
    | nil => rfl
    | cons b r =>
      simp only [List.nil_append, List.foldl_nil]
      rw [parseNatAux, if_neg (by simp_all [noDigitStart])]
  | cons d ds ih =>
    intro acc rest hds hrest
    have hd : isDigitByte d := hds d (by simp)
    simp only [List.cons_append, List.foldl_cons]
    rw [parseNatAux, if_pos hd]
    exact ih _ rest (fun b hb => hds b (by simp [hb])) hrest

theorem parseNat_natDec (n : Nat) (rest : List Nat) (h : noDigitStart rest) :
    parseNat (natDec n ++ rest) = some (n, rest) := by
  obtain ⟨d, ds, hnd⟩ : ∃ d ds, natDec n = d :: ds := by
    cases hh : natDec n with
    | nil => exact absurd hh (natDec_ne_nil n)
    | cons d ds => exact ⟨d, ds, rfl⟩
  have hspec := parseNatAux_spec (natDec n) 0 rest (natDec_digits n) h
  rw [natDec_val] at hspec
  rw [hnd] at hspec ⊢
  simp only [List.cons_append] at hspec ⊢
  rw [parseNat, if_pos (natDec_digits n d (by rw [hnd]; simp))]
  rw [hspec]

theorem parseBool_boolLit (b : Bool) (rest : List Nat) :
    parseBool (boolLit b ++ rest) = some (b, rest) := by
  cases b
  · show parseBool (asciiStr "false" ++ rest) = some (false, rest)
    unfold parseBool
    rw [show asciiStr "false" ++ rest = 102 :: (asciiStr "alse" ++ rest) from rfl,
      show asciiStr "true" = 116 :: asciiStr "rue" from rfl]
    rw [expectBytes, if_neg (by decide)]
    rw [show (102 : Nat) :: (asciiStr "alse" ++ rest)
        = asciiStr "false" ++ rest from rfl]
    rw [expectBytes_self]
  · show parseBool (asciiStr "true" ++ rest) = some (true, rest)
    unfold parseBool
    rw [expectBytes_self]


theorem expectBytes_cons (l : Nat) (ls bs : List Nat) :
    expectBytes (l :: ls) (l :: bs) = expectBytes ls bs := by
  rw [expectBytes, if_pos rfl]

theorem noDigitStart_44 (r : List Nat) : noDigitStart (44 :: r) := rfl

theorem noDigitStart_93 (r : List Nat) : noDigitStart (93 :: r) := rfl

theorem noDigitStart_125 (r : List Nat) : noDigitStart (125 :: r) := rfl

theorem parseEntry_entryJson (e : FileEntry) (rest : List Nat) :
    parseEntry (entryJson e ++ rest) = some (e, rest) := by
  obtain ⟨name, isd, sz, m⟩ := e
  cases m with
  | none =>
    simp only [parseEntry, entryJson, entryJsonBody, List.append_assoc, List.cons_append,
      List.nil_append, expectBytes_cons, expectBytes_self, Option.some_bind,
      parseJsonStr_jsonStr, parseBool_boolLit, parseNat_natDec,
      noDigitStart_44, noDigitStart_93, noDigitStart_125]
    norm_num
  | some mv =>
    have h44 : asciiStr ",\"modified\":" = 44 :: asciiStr "\"modified\":" := rfl
    simp only [parseEntry, entryJson, entryJsonBody, h44, List.append_assoc,
      List.cons_append, List.nil_append, expectBytes_cons, expectBytes_self,
      Option.some_bind, parseJsonStr_jsonStr, parseBool_boolLit, parseNat_natDec,
      noDigitStart_44, noDigitStart_93, noDigitStart_125]
    norm_num


theorem parseEntriesAux_spec :
    ∀ (es : List FileEntry) (fuel : Nat) (rest : List Nat), es ≠ [] → es.length ≤ fuel →
      parseEntriesAux fuel (sepComma (es.map entryJson) ++ 93 :: rest) = some (es, rest) := by
  intro es
  induction es with
  | nil => intro fuel rest hne _; exact absurd rfl hne
  | cons e es ih =>
    intro fuel rest _ hf
    cases fuel with
    | zero => simp at hf
    | succ f =>
      cases es with
      | nil =>
        show parseEntriesAux (f + 1) (sepComma [entryJson e] ++ 93 :: rest)
          = some ([e], rest)
        rw [show sepComma [entryJson e] = entryJson e from rfl]
        rw [parseEntriesAux, parseEntry_entryJson]
        norm_num
      | cons e2 es2 =>
        show parseEntriesAux (f + 1)
            (sepComma (entryJson e :: (e2 :: es2).map entryJson) ++ 93 :: rest)
          = some (e :: e2 :: es2, rest)
        rw [show sepComma (entryJson e :: (e2 :: es2).map entryJson)
            = entryJson e ++ 44 :: sepComma ((e2 :: es2).map entryJson) from rfl]
        rw [List.append_assoc, List.cons_append]
        rw [parseEntriesAux, parseEntry_entryJson]
        norm_num
        simp only [← List.map_cons]
        rw [ih f rest (by simp) (by simpa using hf)]

theorem parseEntries_spec (es : List FileEntry) (fuel : Nat) (rest : List Nat)
    (hf : es.length ≤ fuel) :
    parseEntries fuel (sepComma (es.map entryJson) ++ 93 :: rest) = some (es, rest) := by
  cases es with
  | nil =>
    show parseEntries fuel (93 :: rest) = some ([], rest)
    rw [parseEntries, if_pos rfl]
  | cons e es =>
    obtain ⟨t, ht⟩ : ∃ t, sepComma ((e :: es).map entryJson) = 123 :: t := by
      cases es with
      | nil => exact ⟨entryJsonBody e, rfl⟩
      | cons e2 es2 =>
        refine ⟨entryJsonBody e ++ 44 :: sepComma ((e2 :: es2).map entryJson), ?_⟩
        rw [show sepComma ((e :: e2 :: es2).map entryJson)
            = entryJson e ++ 44 :: sepComma ((e2 :: es2).map entryJson) from rfl]
        rw [show entryJson e = 123 :: entryJsonBody e from rfl]
        rfl
    rw [ht, List.cons_append, parseEntries, if_neg (by decide), ← List.cons_append, ← ht]
    exact parseEntriesAux_spec (e :: es) fuel rest (by simp) hf

theorem entryJson_length_pos (e : FileEntry) : 1 ≤ (entryJson e).length := by
  rw [show entryJson e = 123 :: entryJsonBody e from rfl]
  simp

theorem sepComma_length (es : List FileEntry) :
    es.length ≤ (sepComma (es.map entryJson)).length + 1 := by
  induction es with
  | nil => simp
  | cons e es ih =>
    cases es with
    | nil =>
      have := entryJson_length_pos e
      simp only [sepComma, List.map_cons, List.length_cons, List.length_nil]
      omega
    | cons e2 es2 =>
      rw [show sepComma ((e :: e2 :: es2).map entryJson)
          = entryJson e ++ 44 :: sepComma ((e2 :: es2).map entryJson) from rfl]
      have h1 := entryJson_length_pos e
      simp only [List.length_cons, List.length_append] at ih ⊢
      omega


theorem parseResponse_responseJson (r : Response) :
    parseResponse (responseJson r) = some r := by
  cases r with
  | Ok =>
    simp +decide only [parseResponse, responseJson, List.append_assoc, List.cons_append,
      expectBytes_cons, expectBytes_self, Option.some_bind, parseJsonStr_jsonStr, if_true, if_false]
  | Done w =>
    simp +decide only [parseResponse, responseJson, List.append_assoc, List.cons_append,
      expectBytes_cons, expectBytes_self, Option.some_bind, parseJsonStr_jsonStr, if_true, if_false,
      parseNat_natDec, noDigitStart_125]
  | File s =>
    simp +decide only [parseResponse, responseJson, List.append_assoc, List.cons_append,
      expectBytes_cons, expectBytes_self, Option.some_bind, parseJsonStr_jsonStr, if_true, if_false,
      parseNat_natDec, noDigitStart_125]
  | Error m =>
    simp +decide only [parseResponse, responseJson, List.append_assoc, List.cons_append,
      expectBytes_cons, expectBytes_self, Option.some_bind, parseJsonStr_jsonStr, if_true, if_false]
  | Status ro t f =>
    have hc : asciiStr ",\"file_count\":" = 44 :: asciiStr "\"file_count\":" := rfl
    simp +decide only [parseResponse, responseJson, hc, List.append_assoc,
      List.cons_append, expectBytes_cons, expectBytes_self, Option.some_bind,
      parseJsonStr_jsonStr, if_true, if_false, parseNat_natDec, noDigitStart_44, noDigitStart_125]
  | List es =>
    have hfu : es.length
        ≤ ((sepComma (es.map entryJson) ++ 93 :: [125] : List Nat)).length := by
      have := sepComma_length es
      simp only [List.length_append, List.length_cons, List.length_nil]
      omega
    simp +decide only [parseResponse, responseJson, List.append_assoc, List.cons_append,
      expectBytes_cons, expectBytes_self, Option.some_bind, parseJsonStr_jsonStr, if_true, if_false]
    rw [show ((sepComma (es.map entryJson) ++ [93, 125]) : List Nat)
        = sepComma (es.map entryJson) ++ 93 :: [125] from rfl]
    rw [parseEntries_spec es _ [125] hfu]
    simp +decide only [Option.some_bind, if_true]


theorem parseRequest_requestJson (q : Request) :
    parseRequest (requestJson q) = some q := by
  cases q with
  | Put path size hash =>
    cases hash with
    | none =>
      simp +decide only [parseRequest, requestJson, List.append_assoc, List.cons_append,
        List.nil_append, expectBytes_cons, expectBytes_self, Option.some_bind,
        parseJsonStr_jsonStr, if_true, if_false, parseNat_natDec, noDigitStart_125]
    | some hh =>
      have hc : asciiStr ",\"hash\":" = 44 :: asciiStr "\"hash\":" := rfl
      simp +decide only [parseRequest, requestJson, hc, List.append_assoc,
        List.cons_append, List.nil_append, expectBytes_cons, expectBytes_self,
        Option.some_bind, parseJsonStr_jsonStr, if_true, if_false,
        parseNat_natDec, noDigitStart_44, noDigitStart_125]
  | List path r l =>
    simp +decide only [parseRequest, requestJson, List.append_assoc, List.cons_append,
      expectBytes_cons, expectBytes_self, Option.some_bind, parseJsonStr_jsonStr,
      parseBool_boolLit, if_true, if_false]
  | Get path =>
    simp +decide only [parseRequest, requestJson, List.append_assoc, List.cons_append,
      expectBytes_cons, expectBytes_self, Option.some_bind, parseJsonStr_jsonStr,
      if_true, if_false]
  | Status =>
    simp +decide only [parseRequest, requestJson, List.append_assoc, List.cons_append,
      expectBytes_cons, expectBytes_self, Option.some_bind, parseJsonStr_jsonStr,
      if_true, if_false]


/-! ### Length-prefixed framing -/

def u32be (n : Nat) : List Nat :=
  [n / 16777216 % 256, n / 65536 % 256, n / 256 % 256, n % 256]

def writeMessageBytes (payload : List Nat) : List Nat :=
  u32be payload.length ++ payload

def readMessageBytes (bs : List Nat) : Except String (List Nat × List Nat) :=
  match bs with
  | b0 :: b1 :: b2 :: b3 :: rest =>
    let len := ((b0 * 256 + b1) * 256 + b2) * 256 + b3
    if rest.length < len then Except.error "short payload"
    else Except.ok (rest.take len, rest.drop len)
  | _ => Except.error "short header"

theorem beVal_u32be (n : Nat) (h : n < 4294967296) :
    ((n / 16777216 % 256 * 256 + n / 65536 % 256) * 256 + n / 256 % 256) * 256 + n % 256
      = n := by
  omega

theorem readMessageBytes_write (p rest : List Nat) (h : p.length < 4294967296) :
    readMessageBytes (writeMessageBytes p ++ rest) = Except.ok (p, rest) := by
  unfold writeMessageBytes u32be
  simp only [List.cons_append, List.nil_append, List.append_assoc]
  rw [readMessageBytes]
  rw [beVal_u32be p.length h]
  rw [if_neg (by simp only [List.length_append]; omega)]
  rw [List.take_left, List.drop_left]

theorem readMessageBytes_short (len : Nat) (body : List Nat)
    (h4 : len < 4294967296) (h : body.length < len) :
    readMessageBytes (u32be len ++ body) = Except.error "short payload" := by
  unfold u32be
  simp only [List.cons_append, List.nil_append]
  rw [readMessageBytes]
  rw [beVal_u32be len h4]
  rw [if_pos h]

theorem readMessageBytes_header (bs : List Nat) (h : bs.length < 4) :
    readMessageBytes bs = Except.error "short header" := by
  match bs with
  | [] => rfl
  | [a] => rfl
  | [a, b] => rfl
  | [a, b, c] => rfl
  | a :: b :: c :: d :: t => simp at h; omega


def sendResponseBytes (r : Response) : List Nat :=
  writeMessageBytes (responseJson r)

def sendRequestBytes (q : Request) : List Nat :=
  writeMessageBytes (requestJson q)

def recvResponse (bs : List Nat) : Except String (Response × List Nat) :=
  match readMessageBytes bs with
  | Except.error e => Except.error e
  | Except.ok pr =>
    match parseResponse pr.1 with
    | some r => Except.ok (r, pr.2)
    | none => Except.error "malformed json"

def recvRequest (bs : List Nat) : Except String (Request × List Nat) :=
  match readMessageBytes bs with
  | Except.error e => Except.error e
  | Except.ok pr =>
    match parseRequest pr.1 with
    | some q => Except.ok (q, pr.2)
    | none => Except.error "malformed json"

/-- C4: the wire codec is symmetric — writing any message (4-byte
big-endian length prefix of the serde_json encoding, then that encoding)
and reading from the resulting byte stream yields the original value, for
responses (server.rs `send_response` / client.rs `recv_response`) and
requests (client.rs `send_request` / server.rs `handle_stream`) alike; and
reading fails with a framing error whenever the stream half-closes before
the declared length (or the 4 header bytes) can be read.  The length
hypothesis reflects the framing format itself: a 4-byte prefix can only
declare lengths below `2^32` (`json.len() as u32`). -/
theorem c4_codec_symmetry :
    (∀ (r : Response) (rest : List Nat), (responseJson r).length < 4294967296 →
      recvResponse (sendResponseBytes r ++ rest) = Except.ok (r, rest)) ∧
    (∀ (q : Request) (rest : List Nat), (requestJson q).length < 4294967296 →
      recvRequest (sendRequestBytes q ++ rest) = Except.ok (q, rest)) ∧
    (∀ (len : Nat) (body : List Nat), len < 4294967296 → body.length < len →
      readMessageBytes (u32be len ++ body) = Except.error "short payload") ∧
    (∀ bs : List Nat, bs.length < 4 →
      readMessageBytes bs = Except.error "short header") := by
  refine ⟨fun r rest h => ?_, fun q rest h => ?_,
    readMessageBytes_short, readMessageBytes_header⟩
  · unfold recvResponse sendResponseBytes
    rw [readMessageBytes_write _ _ h]
    simp only [parseResponse_responseJson]
  · unfold recvRequest sendRequestBytes
    rw [readMessageBytes_write _ _ h]
    simp only [parseRequest_requestJson]

theorem c4_codec_symmetry_witness :
    recvResponse (sendResponseBytes Response.Ok ++ []) = Except.ok (Response.Ok, []) ∧
    recvRequest (sendRequestBytes Request.Status ++ []) = Except.ok (Request.Status, []) ∧
    readMessageBytes (u32be 5 ++ [1, 2]) = Except.error "short payload" ∧
    readMessageBytes [0, 0] = Except.error "short header" :=
  ⟨c4_codec_symmetry.1 Response.Ok [] (by decide),
   c4_codec_symmetry.2.1 Request.Status [] (by decide),
   c4_codec_symmetry.2.2.1 5 [1, 2] (by decide) (by decide),
   c4_codec_symmetry.2.2.2 [0, 0] (by decide)⟩

end HankSync
